import Mathlib

/-!
Verification development for `scripts/verify_binance_gaps.py` of the
aggr-binaries repository.  Python functions are shallowly embedded as Lean
functions; sqlite queries are modelled as list operations over an explicit
index, file and network I/O as explicit environment functions, and the
Python standard-library services (UTC calendar, seeded sampling) as
deterministic Lean models noted at their definitions.
-/

/-- A decimal digit character, as produced by Python's string formatting. -/
def digitChar : Nat → Char
  | 0 => '0' | 1 => '1' | 2 => '2' | 3 => '3' | 4 => '4'
  | 5 => '5' | 6 => '6' | 7 => '7' | 8 => '8' | _ => '9'

/-- Numeric value of a decimal digit character. -/
def digitVal (c : Char) : Nat := c.toNat - 48

/-- Fuel-driven most-significant-first decimal digits of a natural number. -/
def natDigitsAux (fuel : Nat) (n : Nat) : List Char :=
  match fuel with
  | 0 => []
  | f + 1 => if n < 10 then [digitChar n] else natDigitsAux f (n / 10) ++ [digitChar (n % 10)]

/-- Decimal digits of `n`, most significant first (the digits of Python's `str(n)`). -/
def natDigits (n : Nat) : List Char := natDigitsAux (n + 1) n

/-- Zero-pad the decimal digits of `n` on the left to width `w`
(Python's `%0wd` / `strftime` zero padding). -/
def padNum (w n : Nat) : List Char :=
  List.replicate (w - (natDigits n).length) '0' ++ natDigits n

/-- Value denoted by a most-significant-first digit string. -/
def valOfDigits (l : List Char) : Nat := l.foldl (fun a c => 10 * a + digitVal c) 0

/-- Model of the proleptic-Gregorian calendar used by Python's `datetime`:
`civilN z0` converts `z0` = days since 0000-03-01 (i.e. days since the Unix
epoch plus 719468) to a `(year, month, day)` triple, by the standard
civil-from-days algorithm. -/
def civilN (z0 : Nat) : Nat × Nat × Nat :=
  let era := z0 / 146097
  let doe := z0 % 146097
  let yoe := (doe - doe / 1460 + doe / 36524 - doe / 146096) / 365
  let doy := doe - (365 * yoe + yoe / 4 - yoe / 100)
  let mp := (5 * doy + 2) / 153
  let d := doy - (153 * mp + 2) / 5 + 1
  let m := if mp < 10 then mp + 3 else mp - 9
  let y := yoe + era * 400 + (if m ≤ 2 then 1 else 0)
  (y, m, d)

/-- Inverse of `civilN`: days (since 0000-03-01) from a civil date. -/
def daysN (y m d : Nat) : Nat :=
  let y2 := y - (if m ≤ 2 then 1 else 0)
  let era := y2 / 400
  let yoe := y2 % 400
  let mp := (m + 9) % 12
  let doy := (153 * mp + 2) / 5 + d - 1
  let doe := yoe * 365 + yoe / 4 - yoe / 100 + doy
  era * 146097 + doe

/-- Model of `date.strftime("%Y-%m-%d")` for the UTC day numbered `day`
(days since the Unix epoch). -/
def dayToStr (day : Int) : String :=
  let t := civilN (day + 719468).toNat
  String.mk (padNum 4 t.1 ++ '-' :: padNum 2 t.2.1 ++ '-' :: padNum 2 t.2.2)

/-- UTC day number of an epoch-millisecond timestamp: the day of
`datetime.utcfromtimestamp(ms / 1000).date()`. -/
def dayOfMs (ms : Int) : Int := Int.fdiv ms 86400000

/-- `n` consecutive day strings starting at day `cur`: the unrolling of the
`while current <= end_date` loop of `iter_dates`. -/
def iterFrom (cur : Int) : Nat → List String
  | 0 => []
  | n + 1 => dayToStr cur :: iterFrom (cur + 1) n

/-- `iter_dates` of `verify_binance_gaps.py`: the UTC calendar days spanned
by the inclusive window `[startMs, endMs]`, as `YYYY-MM-DD` strings. -/
def iter_dates (startMs endMs : Int) : List String :=
  iterFrom (dayOfMs startMs) (dayOfMs endMs + 1 - dayOfMs startMs).toNat

/-- Round `num / den` to the nearest integer, ties to even — the rounding of
Python's fixed-point float formatting, modelled exactly on the rational value. -/
def roundHalfEven (num den : Nat) : Nat :=
  let q := num / den
  let r := num % den
  if den < 2 * r then q + 1
  else if 2 * r < den then q
  else if q % 2 = 0 then q else q + 1

/-- Decimal rendering of the scaled value `q`: the string `f"{x:.4f}"` for
`x = q / 10000`. -/
def fixed4String (q : Nat) : String :=
  String.mk (natDigits (q / 10000) ++ '.' :: padNum 4 (q % 10000))

/-- `fmt_ratio` of `verify_binance_gaps.py`: `"n/a"` when `estimated <= 0`,
else `f"{actual / estimated:.4f}x"`.  The float division plus 4-decimal
formatting of the source is modelled as exact rational rounding to 4 decimal
places, half to even. -/
def fmt_ratio (actual : Nat) (estimated : Int) : String :=
  if estimated ≤ 0 then "n/a"
  else fixed4String (roundHalfEven (actual * 10000) estimated.toNat) ++ "x"

/-- Model of Python's `str.rstrip`: drop trailing whitespace characters. -/
def rstripChars (l : List Char) : List Char :=
  (l.reverse.dropWhile Char.isWhitespace).reverse

/-- Split a character list at every comma (Python's `str.split(",")`);
`acc` holds the reversed characters of the current field. -/
def splitCommaAux : List Char → List Char → List (List Char)
  | [], acc => [acc.reverse]
  | c :: rest, acc =>
    if c = ',' then acc.reverse :: splitCommaAux rest []
    else splitCommaAux rest (c :: acc)

/-- The fields of one archive row: `line.rstrip().split(",")`. -/
def rowParts (line : String) : List String :=
  (splitCommaAux (rstripChars line.data) []).map String.mk

/-- Digit-string value accumulator: `none` as soon as a non-digit appears. -/
def parseDigitsAux : List Char → Nat → Option Nat
  | [], acc => some acc
  | c :: rest, acc =>
    if c.isDigit then parseDigitsAux rest (acc * 10 + (c.toNat - 48)) else none

/-- Value of a non-empty all-digit character list, else `none`. -/
def parseDigits : List Char → Option Nat
  | [] => none
  | l => parseDigitsAux l 0

/-- Model of Python's `int(str)` (an optional sign followed by digits;
anything else raises `ValueError`, modelled as `none`). -/
def parseIntChars : List Char → Option Int
  | '-' :: rest => (parseDigits rest).map (fun n => -(n : Int))
  | '+' :: rest => (parseDigits rest).map (fun n => (n : Int))
  | l => (parseDigits l).map (fun n => (n : Int))

/-- `int(s)` on a string. -/
def strToInt (s : String) : Option Int := parseIntChars s.data

/-- Timestamp field of one archive row, as accessed by
`scan_zip_for_window`: `none` when the row has at most `tsIndex` fields. -/
def rowField (tsIndex : Nat) (line : String) : Option String :=
  let parts := rowParts line
  if parts.length ≤ tsIndex then none else parts[tsIndex]?

/-- Parsed timestamp of one archive row: `none` when the row is short or the
field is not an integer (Python's `int` raising `ValueError`). -/
def rowTs (tsIndex : Nat) (line : String) : Option Int :=
  (rowField tsIndex line).bind strToInt

/-- The row loop of `scan_zip_for_window`, carrying the running count and
first/last hit: skip short/unparseable rows and rows below the window,
stop at the first row above the window, count the rest. -/
def scanLoop (tsIndex : Nat) (startMs endMs : Int) (count : Nat)
    (firstTs lastTs : Option Int) : List String → Nat × Option Int × Option Int
  | [] => (count, firstTs, lastTs)
  | line :: rest =>
    match rowTs tsIndex line with
    | none => scanLoop tsIndex startMs endMs count firstTs lastTs rest
    | some ts =>
      if ts < startMs then scanLoop tsIndex startMs endMs count firstTs lastTs rest
      else if endMs < ts then (count, firstTs, lastTs)
      else
        scanLoop tsIndex startMs endMs (count + 1)
          (match firstTs with | none => some ts | some x => some x) (some ts) rest

/-- A fetched archive: named members with their text lines.  Download and
decompression are I/O and are modelled away; member contents are given
directly. -/
structure ZipArchive where
  members : List (String × List String)
deriving DecidableEq

/-- Model of Python's `name.endswith("/")`, expressed on the character list
so that it evaluates inside the kernel. -/
def endsWithSlash (s : String) : Bool := s.data.getLast? == some '/'

/-- The archive's data members: names not ending in `"/"`. -/
def dataMembers (zip : ZipArchive) : List (String × List String) :=
  zip.members.filter (fun m => !endsWithSlash m.1)

/-- Lines of the member that `scan_zip_for_window` scans (the first data
member), or `[]` when there is none. -/
def memberLines (zip : ZipArchive) : List String :=
  match dataMembers zip with
  | [] => []
  | m :: _ => m.2

/-- `scan_zip_for_window` of `verify_binance_gaps.py`: scan the first data
member's rows in file order for timestamps inside the inclusive window,
returning the count and the first/last hit. -/
def scan_zip_for_window (zip : ZipArchive) (startMs endMs : Int) (tsIndex : Nat) :
    Nat × Option Int × Option Int :=
  match dataMembers zip with
  | [] => (0, none, none)
  | m :: _ => scanLoop tsIndex startMs endMs 0 none none m.2

/-- Split a character list on whitespace runs, dropping empty tokens:
Python's `str.split()` with no arguments; `acc` holds the reversed
characters of the current token. -/
def splitWsAux : List Char → List Char → List (List Char)
  | [], acc => if acc.isEmpty then [] else [acc.reverse]
  | c :: rest, acc =>
    if c.isWhitespace then
      if acc.isEmpty then splitWsAux rest [] else acc.reverse :: splitWsAux rest []
    else splitWsAux rest (c :: acc)

/-- `str.split()` of a line's characters. -/
def splitWs (l : List Char) : List (List Char) := splitWsAux l []

/-- First whitespace-delimited token of a line parsed as an integer:
`int(line.strip().split()[0])`; `none` when the line has no token or the
token is not an integer. -/
def firstTokenInt (line : String) : Option Int :=
  match splitWs line.data with
  | [] => none
  | tok :: _ => parseIntChars tok

/-- Line `n` (1-indexed) of the file at `path`: `none` when the file is
missing or has fewer than `n` lines (or `n < 1`, which the 1-based
enumeration of the source never reaches). -/
def lineAt (files : String → Option (List String)) (path : String) (n : Int) : Option String :=
  match files path with
  | none => none
  | some lines => if n < 1 then none else lines[(n - 1).toNat]?

/-- `read_line_timestamp` of `verify_binance_gaps.py`: scan to the 1-indexed
line `lineNumber` of the file (file contents are provided as decompressed
text lines by the environment) and parse its first whitespace token as an
integer; `none` on a missing file (`FileNotFoundError`), a missing line, an
empty line, or an unparseable token. -/
def read_line_timestamp (files : String → Option (List String)) (path : String)
    (lineNumber : Int) : Option Int :=
  match files path with
  | none => none
  | some lines =>
    if lineNumber < 1 then none
    else
      match lines[(lineNumber - 1).toNat]? with
      | none => none
      | some line =>
        match splitWs line.data with
        | [] => none
        | tok :: _ => parseIntChars tok

/-- `resolve_file_path`: the root path joined with the relative path. -/
def resolve_file_path (rootPath relativePath : String) : String :=
  rootPath ++ "/" ++ relativePath

/-- One selected gap record: the columns selected by `iter_gap_rows`
(`gap_ms` and `gap_miss` are non-null on every selected row and are carried
as integers). -/
structure GapRow where
  id : Int
  root_path : String
  relative_path : String
  collector : String
  exchange : String
  symbol : String
  start_line : Int
  end_line : Int
  gap_ms : Int
  gap_miss : Int
  gap_end_ts : Option Int
deriving DecidableEq

/-- Timestamp resolution of `main`: use `gap_end_ts` when present, else
fall back to reading line `start_line` of the backing file. -/
def resolveTs (files : String → Option (List String)) (row : GapRow) : Option Int :=
  match row.gap_end_ts with
  | some ts => some ts
  | none =>
    read_line_timestamp files (resolve_file_path row.root_path row.relative_path)
      row.start_line

/-- One row of the `events` table of the backing index. -/
structure EventRow where
  id : Int
  root_id : Int
  relative_path : String
  collector : String
  exchange : String
  symbol : String
  event_type : String
  start_line : Int
  end_line : Int
  gap_ms : Option Int
  gap_miss : Option Int
  gap_end_ts : Option Int
deriving DecidableEq

/-- The read-only index: the `roots` table (id, path) and the `events`
table. -/
structure GapIndex where
  roots : List (Int × String)
  events : List EventRow
deriving DecidableEq

/-- The ordering modes accepted by `--order`. -/
inductive OrderMode where
  | random
  | gap_miss
  | gap_ms
  | hybrid
deriving DecidableEq

/-- `SelectionQuery`: the selection configuration consumed by
`iter_gap_rows` — filters, ordering mode, limit, offset, pool size, seed. -/
structure SelectionQuery where
  collector : Option String
  exchange : Option String
  symbol : Option String
  min_miss : Int
  min_gap_ms : Int
  order : OrderMode
  limit : Int
  offset : Int
  pool : Int
  seed : Int
deriving DecidableEq

/-- A filter clause for an optional string option: Python treats `None` and
`""` as falsy, adding no clause. -/
def strFilterMatches (filt : Option String) (v : String) : Bool :=
  match filt with
  | none => true
  | some s => if s.isEmpty then true else v == s

/-- The WHERE clause of `iter_gap_rows`: gap-type events with non-null
`gap_ms`/`gap_miss`, plus the optional exact-match filters and the lower
bounds (a zero `min_miss`/`min_gap_ms` is falsy in Python, adding no
clause). -/
def rowMatches (q : SelectionQuery) (e : EventRow) : Bool :=
  e.event_type == "gap" && e.gap_ms.isSome && e.gap_miss.isSome
    && strFilterMatches q.collector e.collector
    && strFilterMatches q.exchange e.exchange
    && strFilterMatches q.symbol e.symbol
    && (q.min_miss == 0 || decide (q.min_miss ≤ e.gap_miss.getD 0))
    && (q.min_gap_ms == 0 || decide (q.min_gap_ms ≤ e.gap_ms.getD 0))

/-- The SELECT–JOIN of `iter_gap_rows`: filtered events joined with their
root's path, in table order (the filters touch only event columns, so
filtering commutes with the join). -/
def selectedRows (q : SelectionQuery) (idx : GapIndex) : List GapRow :=
  (idx.events.filter (rowMatches q)).flatMap (fun e =>
    (idx.roots.filter (fun r => r.1 == e.root_id)).map (fun r =>
      GapRow.mk e.id r.2 e.relative_path e.collector e.exchange e.symbol
        e.start_line e.end_line (e.gap_ms.getD 0) (e.gap_miss.getD 0) e.gap_end_ts))

/-- Stable insertion used to model the deterministic ORDER BY. -/
def insertLE (le : GapRow → GapRow → Bool) (a : GapRow) : List GapRow → List GapRow
  | [] => [a]
  | b :: bs => if le a b then a :: b :: bs else b :: insertLE le a bs

/-- Stable insertion sort by `le`, the model of the sqlite ORDER BY. -/
def sortLE (le : GapRow → GapRow → Bool) : List GapRow → List GapRow
  | [] => []
  | a :: rest => insertLE le a (sortLE le rest)

/-- The ORDER BY comparator of each mode: record id ascending by default,
`gap_miss` / `gap_ms` / their product descending for the named modes. -/
def orderLE : OrderMode → GapRow → GapRow → Bool
  | OrderMode.gap_miss => fun a b => decide (b.gap_miss ≤ a.gap_miss)
  | OrderMode.gap_ms => fun a b => decide (b.gap_ms ≤ a.gap_ms)
  | OrderMode.hybrid => fun a b => decide (b.gap_ms * b.gap_miss ≤ a.gap_ms * a.gap_miss)
  | OrderMode.random => fun a b => decide (a.id ≤ b.id)

/-- sqlite `LIMIT n`: negative `n` means no limit; `n = 0` keeps nothing. -/
def limitClause (n : Int) (l : List GapRow) : List GapRow :=
  if n < 0 then l else l.take n.toNat

/-- Python's `rows[i:]` slice: a negative `i` counts from the end of the
list. -/
def pySliceFrom (l : List GapRow) (i : Int) : List GapRow :=
  if 0 ≤ i then l.drop i.toNat else l.drop ((l.length : Int) + i).toNat

/-- sqlite `LIMIT :limit OFFSET :offset` as sent by the non-random branch
(`limit` is sent as −1, i.e. no limit, when ≤ 0; a negative offset acts as
0, which `Int.toNat` gives). -/
def applyLimitOffset (limit offset : Int) (l : List GapRow) : List GapRow :=
  let l2 := l.drop offset.toNat
  if limit ≤ 0 then l2 else l2.take limit.toNat

/-- Model of the seeded PRNG behind `random.Random(seed)`: a 64-bit linear
congruential generator.  The spec requires seeded determinism only, not the
exact Mersenne-Twister draw sequence. -/
def lcg (s : Nat) : Nat :=
  (6364136223846793005 * s + 1442695040888963407) % 18446744073709551616

/-- Seeded sampling without replacement, the model of `rng.sample(rows, k)`:
draw an index from the generator state, emit that element, remove it, and
recurse. -/
def sampleAux {α : Type} : Nat → Nat → List α → List α
  | _, 0, _ => []
  | _, _ + 1, [] => []
  | s, k + 1, a :: rest =>
    have hl : 0 < (a :: rest).length := by simp
    (a :: rest).get ⟨lcg s % (a :: rest).length, Nat.mod_lt _ hl⟩
      :: sampleAux (lcg s) k ((a :: rest).eraseIdx (lcg s % (a :: rest).length))

/-- `random.Random(seed).sample(l, k)`. -/
def rngSample {α : Type} (seed : Int) (l : List α) (k : Nat) : List α :=
  sampleAux seed.natAbs k l

/-- The ranked candidate pool of the random branch: filtered rows ordered by
`gap_miss` descending, limited to `pool` entries. -/
def poolRows (q : SelectionQuery) (idx : GapIndex) : List GapRow :=
  limitClause q.pool
    (sortLE (fun a b => decide (b.gap_miss ≤ a.gap_miss)) (selectedRows q idx))

/-- The pool after the offset slice (`rows = rows[offset:]`, applied only
when the offset is nonzero — slicing by zero is the identity anyway). -/
def poolRemaining (q : SelectionQuery) (idx : GapIndex) : List GapRow :=
  if q.offset ≠ 0 then pySliceFrom (poolRows q idx) q.offset else poolRows q idx

/-- `iter_gap_rows` of `verify_binance_gaps.py`: in random mode, build the
ranked pool, drop the offset, return it unsampled when `limit ≤ 0`, else
draw `min(limit, remaining)` entries with the seeded sampler; in the other
modes, order the filtered rows by the mode's key and apply limit/offset. -/
def iter_gap_rows (q : SelectionQuery) (idx : GapIndex) : List GapRow :=
  if q.order = OrderMode.random then
    if (poolRows q idx).isEmpty then []
    else if (poolRemaining q idx).isEmpty then []
    else if q.limit ≤ 0 then poolRemaining q idx
    else rngSample q.seed (poolRemaining q idx)
        (min q.limit.toNat (poolRemaining q idx).length)
  else
    applyLimitOffset q.limit q.offset (sortLE (orderLE q.order) (selectedRows q idx))

/-- The ambient I/O of one run: readable files (as decompressed text lines)
and fetchable day archives.  `fetch day = none` models a failed download
("unavailable"); a cache hit and a fresh download are not distinguished. -/
structure RunEnv where
  files : String → Option (List String)
  fetch : String → Option ZipArchive

/-- Per-gap terminal result of the aggregator loop of `main`. -/
inductive VerificationOutcome where
  | unresolvable
  | tooLarge (days : Nat)
  | missingDays (n : Nat)
  | inspected (startMs endMs gapMiss : Int) (total : Nat) (firstHit lastHit : Option Int)
deriving DecidableEq

/-- Day-loop accumulator of `main`. -/
structure DayAcc where
  total : Nat
  first_hit : Option Int
  last_hit : Option Int
  missing_days : Nat
deriving DecidableEq

/-- First-hit merge of `main`: replace when unset, or when the day's first
hit is present and earlier. -/
def updFirst (cur fts : Option Int) : Option Int :=
  match cur, fts with
  | none, _ => fts
  | some c, some f => if f < c then some f else some c
  | some c, none => some c

/-- Last-hit merge of `main`: replace when unset, or when the day's last
hit is present and later. -/
def updLast (cur lts : Option Int) : Option Int :=
  match cur, lts with
  | none, _ => lts
  | some c, some f => if c < f then some f else some c
  | some c, none => some c

/-- One iteration of the day loop: a failed fetch increments
`missing_days` and continues; otherwise scan the archive and merge the
count and the first/last hits. -/
def dayStep (env : RunEnv) (tsIndex : Nat) (startMs endMs : Int)
    (acc : DayAcc) (day : String) : DayAcc :=
  match env.fetch day with
  | none => { acc with missing_days := acc.missing_days + 1 }
  | some zip =>
    let r := scan_zip_for_window zip startMs endMs tsIndex
    let acc2 :=
      if r.1 ≠ 0 then
        { acc with first_hit := updFirst acc.first_hit r.2.1,
                   last_hit := updLast acc.last_hit r.2.2 }
      else acc
    { acc2 with total := acc2.total + r.1 }

/-- The per-gap body of `main`'s loop: resolve the end timestamp (terminal
`unresolvable` on failure), decompose the window into days, give up beyond
3 days, fetch and scan every day, then classify by `missing_days`. -/
def processGap (env : RunEnv) (tsIndex : Nat) (row : GapRow) : VerificationOutcome :=
  match resolveTs env.files row with
  | none => VerificationOutcome.unresolvable
  | some ts =>
    let startMs := ts - row.gap_ms
    let endMs := ts
    let dates := iter_dates startMs endMs
    if 3 < dates.length then VerificationOutcome.tooLarge dates.length
    else
      let acc := dates.foldl (dayStep env tsIndex startMs endMs) (DayAcc.mk 0 none none 0)
      if acc.missing_days ≠ 0 then VerificationOutcome.missingDays acc.missing_days
      else
        VerificationOutcome.inspected startMs endMs row.gap_miss acc.total
          acc.first_hit acc.last_hit

/-- `RunSummary`: the counters printed by the final summary line. -/
structure RunSummary where
  gaps : Nat
  inspected : Nat
  skipped : Nat
  total_est_miss : Int
  total_binance_trades : Nat
deriving DecidableEq

/-- Counter update for one outcome.  An unresolvable gap updates nothing —
the loop `continue`s without touching any counter; skips increment
`skipped` only; an inspection increments `inspected` and adds `gap_miss`
and the scanned total to the run totals. -/
def stepSummary (s : RunSummary) (o : VerificationOutcome) : RunSummary :=
  match o with
  | VerificationOutcome.unresolvable => s
  | VerificationOutcome.tooLarge _ => { s with skipped := s.skipped + 1 }
  | VerificationOutcome.missingDays _ => { s with skipped := s.skipped + 1 }
  | VerificationOutcome.inspected _ _ gapMiss total _ _ =>
    { s with inspected := s.inspected + 1,
             total_est_miss := s.total_est_miss + gapMiss,
             total_binance_trades := s.total_binance_trades + total }

/-- The whole gap loop of `main`: the outcome of every selected row plus
the accumulated counters (`gaps` is `len(rows)` as printed). -/
def runGaps (env : RunEnv) (tsIndex : Nat) (rows : List GapRow) :
    RunSummary × List VerificationOutcome :=
  let outs := rows.map (processGap env tsIndex)
  (outs.foldl stepSummary (RunSummary.mk rows.length 0 0 0 0), outs)

/-- One printed line of `main`, tagged by its print site and carrying the
interpolated data. -/
inductive ReportLine where
  | noCandidates
  | unresolvableLine (id : Int) (startLine : Int) (path : String)
  | gapSummary (id : Int) (gapMiss : Int) (total : Nat) (ratio : String)
  | skipDays (days : Nat)
  | skipMissing (missing : Nat)
  | sourceLine (line : Int) (path : String)
  | windowLine (startMs endMs gapMs : Int) (first last : Option Int)
  | summaryLine (gaps inspected skipped : Nat) (totalMiss : Int) (totalTrades : Nat)
      (ratio : String)
deriving DecidableEq

/-- The lines printed for one gap, by outcome. -/
def linesFor (row : GapRow) (o : VerificationOutcome) : List ReportLine :=
  match o with
  | VerificationOutcome.unresolvable =>
    [ReportLine.unresolvableLine row.id row.start_line
      (resolve_file_path row.root_path row.relative_path)]
  | VerificationOutcome.tooLarge n =>
    [ReportLine.gapSummary row.id row.gap_miss 0 "n/a", ReportLine.skipDays n]
  | VerificationOutcome.missingDays n =>
    [ReportLine.gapSummary row.id row.gap_miss 0 "n/a", ReportLine.skipMissing n]
  | VerificationOutcome.inspected startMs endMs gapMiss total f l =>
    ReportLine.gapSummary row.id gapMiss total (fmt_ratio total row.gap_miss)
      :: ((if row.gap_end_ts = none then
            [ReportLine.sourceLine row.start_line
              (resolve_file_path row.root_path row.relative_path)]
          else [])
        ++ [ReportLine.windowLine startMs endMs row.gap_ms f l])

/-- The printed output of `main` after configuration validation: the
no-candidates message alone when the selector returned nothing (`main`
returns 0 before reaching the summary), otherwise the per-gap lines
followed by the one final summary line. -/
def mainLines (env : RunEnv) (tsIndex : Nat) (rows : List GapRow) : List ReportLine :=
  if rows.isEmpty then [ReportLine.noCandidates]
  else
    let p := runGaps env tsIndex rows
    (rows.zip p.2).flatMap (fun rp => linesFor rp.1 rp.2)
      ++ [ReportLine.summaryLine p.1.gaps p.1.inspected p.1.skipped p.1.total_est_miss
            p.1.total_binance_trades
            (fmt_ratio p.1.total_binance_trades p.1.total_est_miss)]

/-- Outcome classifier: inspected. -/
def isInspectedO : VerificationOutcome → Bool
  | VerificationOutcome.inspected _ _ _ _ _ _ => true
  | _ => false

/-- Outcome classifier: skipped (window too large or missing days). -/
def isSkippedO : VerificationOutcome → Bool
  | VerificationOutcome.tooLarge _ => true
  | VerificationOutcome.missingDays _ => true
  | _ => false

/-- Outcome classifier: unresolvable timestamp. -/
def isUnresolvableO : VerificationOutcome → Bool
  | VerificationOutcome.unresolvable => true
  | _ => false

/-- The `gap_miss` contribution of an outcome (inspected outcomes only). -/
def outMiss : VerificationOutcome → Option Int
  | VerificationOutcome.inspected _ _ gapMiss _ _ _ => some gapMiss
  | _ => none

/-- The reference-total contribution of an outcome (inspected only). -/
def outTotal : VerificationOutcome → Option Nat
  | VerificationOutcome.inspected _ _ _ total _ _ => some total
  | _ => none

/-- Summary-line recognizer. -/
def isSummaryLine : ReportLine → Bool
  | ReportLine.summaryLine _ _ _ _ _ _ => true
  | _ => false

/-- A concrete selection query used in witnesses. -/
def witnessQuery : SelectionQuery :=
  SelectionQuery.mk none none none 0 0 OrderMode.random 1 0 1000 1337

/-- A concrete event row used in witnesses. -/
def witnessEvent (i : Int) : EventRow :=
  EventRow.mk i 1 "data/file.txt" "col" "BINANCE" "btcusd" "gap" 7 9
    (some 60000) (some 5) (some 1628899260000)

/-- A concrete index used in witnesses. -/
def witnessIndex : GapIndex :=
  GapIndex.mk [(1, "root")] [witnessEvent 1, witnessEvent 2]

/-- A run environment with no readable files and no fetchable archives. -/
def emptyEnv : RunEnv := RunEnv.mk (fun _ => none) (fun _ => none)

/-- A gap row with no cached end timestamp, whose backing file does not
exist in `emptyEnv`: its timestamp is unresolvable. -/
def unresolvedRow : GapRow :=
  GapRow.mk 1 "root" "data/file.txt" "col" "BINANCE" "btcusd" 7 9 60000 5 none

theorem digitVal_digitChar {n : Nat} (h : n < 10) : digitVal (digitChar n) = n := by
  interval_cases n <;> decide

theorem natDigitsAux_congr :
    ∀ f1 f2 n, n < f1 → n < f2 → natDigitsAux f1 n = natDigitsAux f2 n := by
  intro f1
  induction f1 with
  | zero => intro f2 n h; omega
  | succ f ih =>
    intro f2 n h1 h2
    match f2, h2 with
    | f2 + 1, _ =>
      simp only [natDigitsAux]
      by_cases h10 : n < 10
      · simp [h10]
      · simp only [h10, if_neg, if_false]
        have hd : n / 10 < f := by omega
        have hd2 : n / 10 < f2 := by omega
        rw [ih f2 (n / 10) hd hd2]

/-- `valOfDigits` over a generic accumulator. -/
theorem valOfDigits_foldl_append (a : Nat) (l1 l2 : List Char) :
    (l1 ++ l2).foldl (fun a c => 10 * a + digitVal c) a
      = l2.foldl (fun a c => 10 * a + digitVal c) (l1.foldl (fun a c => 10 * a + digitVal c) a) := by
  rw [List.foldl_append]

theorem valOfDigits_natDigitsAux :
    ∀ f n a, n < f →
      (natDigitsAux f n).foldl (fun a c => 10 * a + digitVal c) a = a * 10 ^ (natDigitsAux f n).length + n := by
  intro f
  induction f with
  | zero => intro n a h; omega
  | succ f ih =>
    intro n a h
    simp only [natDigitsAux]
    by_cases h10 : n < 10
    · simp only [h10, if_true, List.foldl_cons, List.foldl_nil, digitVal_digitChar h10,
        List.length_singleton, pow_one]
      omega
    · simp only [h10, if_neg, if_false]
      rw [List.foldl_append]
      have hd : n / 10 < f := by omega
      have h9 : n % 10 < 10 := Nat.mod_lt n (by omega)
      rw [ih (n / 10) a hd]
      simp only [List.foldl_cons, List.foldl_nil, digitVal_digitChar h9, List.length_append,
        List.length_singleton, pow_succ]
      rw [← mul_assoc]
      generalize a * 10 ^ (natDigitsAux f (n / 10)).length = t
      omega

theorem valOfDigits_natDigits (n : Nat) : valOfDigits (natDigits n) = n := by
  unfold valOfDigits natDigits
  rw [valOfDigits_natDigitsAux (n + 1) n 0 (by omega)]
  simp

theorem foldl_replicate_zero (k : Nat) :
    (List.replicate k '0').foldl (fun a c => 10 * a + digitVal c) 0 = 0 := by
  induction k with
  | zero => rfl
  | succ k ih =>
    rw [List.replicate_succ]
    simpa using ih

theorem valOfDigits_padNum (w n : Nat) : valOfDigits (padNum w n) = n := by
  unfold padNum valOfDigits
  rw [List.foldl_append, foldl_replicate_zero]
  exact valOfDigits_natDigits n

theorem padNum_inj (w : Nat) {a b : Nat} (h : padNum w a = padNum w b) : a = b := by
  have := valOfDigits_padNum w a
  rw [h, valOfDigits_padNum] at this
  omega

theorem natDigits_length_le_two {n : Nat} (h : n < 100) : (natDigits n).length ≤ 2 := by
  unfold natDigits
  by_cases h10 : n < 10
  · simp [natDigitsAux, h10]
  · have : natDigitsAux (n + 1) n = natDigitsAux (n / 10 + 1) (n / 10) ++ [digitChar (n % 10)] := by
      simp only [natDigitsAux, h10, if_neg, if_false]
      congr 1
      exact natDigitsAux_congr n (n / 10 + 1) (n / 10) (by omega) (by omega)
    rw [this]
    have h1 : n / 10 < 10 := by omega
    simp [natDigitsAux, h1]

theorem padNum_length {w n : Nat} (h : (natDigits n).length ≤ w) : (padNum w n).length = w := by
  unfold padNum
  rw [List.length_append, List.length_replicate]
  omega

theorem padNum_two_length {n : Nat} (h : n < 100) : (padNum 2 n).length = 2 :=
  padNum_length (natDigits_length_le_two h)

set_option maxHeartbeats 1000000

theorem era_facts (doe : Nat) (hlt : doe < 146097) :
    365 * ((doe - doe / 1460 + doe / 36524 - doe / 146096) / 365)
      + ((doe - doe / 1460 + doe / 36524 - doe / 146096) / 365) / 4
      - ((doe - doe / 1460 + doe / 36524 - doe / 146096) / 365) / 100 ≤ doe
    ∧ doe ≤ 365 * ((doe - doe / 1460 + doe / 36524 - doe / 146096) / 365)
      + ((doe - doe / 1460 + doe / 36524 - doe / 146096) / 365) / 4
      - ((doe - doe / 1460 + doe / 36524 - doe / 146096) / 365) / 100 + 365
    ∧ (doe - doe / 1460 + doe / 36524 - doe / 146096) / 365 ≤ 399 := by
  have hb : (doe - doe / 1460 + doe / 36524 - doe / 146096) / 365 / 4
      = (doe - doe / 1460 + doe / 36524 - doe / 146096) / 1460 := by
    rw [Nat.div_div_eq_div_mul]
  have hc : (doe - doe / 1460 + doe / 36524 - doe / 146096) / 365 / 100
      = (doe - doe / 1460 + doe / 36524 - doe / 146096) / 36500 := by
    rw [Nat.div_div_eq_div_mul]
  rw [hb, hc]
  have he : doe / 36524 = 0 ∨ doe / 36524 = 1 ∨ doe / 36524 = 2 ∨ doe / 36524 = 3
      ∨ doe / 36524 = 4 := by omega
  have hf : doe / 146096 = 0 ∨ doe / 146096 = 1 := by omega
  rcases he with he | he | he | he | he <;> rcases hf with hf | hf <;> rw [he, hf] <;> omega

theorem daysN_civilN (z0 : Nat) :
    daysN (civilN z0).1 (civilN z0).2.1 (civilN z0).2.2 = z0 := by
  obtain ⟨era, doe, hlt, rfl⟩ : ∃ era doe, doe < 146097 ∧ z0 = 146097 * era + doe :=
    ⟨z0 / 146097, z0 % 146097, Nat.mod_lt _ (by norm_num), (Nat.div_add_mod _ _).symm⟩
  obtain ⟨hy2, hy3, hy1⟩ := era_facts doe hlt
  simp only [civilN, daysN, Nat.mul_add_div (by norm_num : 0 < 146097), Nat.mul_add_mod,
    Nat.div_eq_of_lt hlt, Nat.mod_eq_of_lt hlt, Nat.add_zero]
  generalize hyoe : (doe - doe / 1460 + doe / 36524 - doe / 146096) / 365 = yoe at hy1 hy2 hy3 ⊢
  clear hyoe
  generalize hdoy : doe - (365 * yoe + yoe / 4 - yoe / 100) = doy
  have hdoy1 : doy ≤ 365 := by omega
  have hdoe2 : 365 * yoe + yoe / 4 - yoe / 100 + doy = doe := by omega
  generalize hmp : (5 * doy + 2) / 153 = mp
  have hmp1 : mp ≤ 11 := by omega
  have hd1 : (153 * mp + 2) / 5 ≤ doy := by omega
  by_cases hmp10 : mp < 10
  · simp only [if_pos hmp10]
    have hne : ¬ (mp + 3 ≤ 2) := by omega
    simp only [if_neg hne, Nat.add_zero, Nat.sub_zero]
    have hA : (yoe + era * 400) / 400 = era := by omega
    have hB : (yoe + era * 400) % 400 = yoe := by omega
    have hC : (mp + 3 + 9) % 12 = mp := by omega
    rw [hA, hB, hC]
    omega
  · simp only [if_neg hmp10]
    have hle : mp - 9 ≤ 2 := by omega
    simp only [if_pos hle, Nat.add_sub_cancel]
    have hA : (yoe + era * 400) / 400 = era := by omega
    have hB : (yoe + era * 400) % 400 = yoe := by omega
    have hC : (mp - 9 + 9) % 12 = mp := by omega
    rw [hA, hB, hC]
    omega

theorem civilN_parts_lt (z0 : Nat) : (civilN z0).2.1 < 100 ∧ (civilN z0).2.2 < 100 := by
  obtain ⟨era, doe, hlt, rfl⟩ : ∃ era doe, doe < 146097 ∧ z0 = 146097 * era + doe :=
    ⟨z0 / 146097, z0 % 146097, Nat.mod_lt _ (by norm_num), (Nat.div_add_mod _ _).symm⟩
  obtain ⟨hy2, hy3, hy1⟩ := era_facts doe hlt
  simp only [civilN, Nat.mul_add_div (by norm_num : 0 < 146097), Nat.mul_add_mod,
    Nat.div_eq_of_lt hlt, Nat.mod_eq_of_lt hlt, Nat.add_zero]
  generalize hyoe : (doe - doe / 1460 + doe / 36524 - doe / 146096) / 365 = yoe at hy1 hy2 hy3 ⊢
  clear hyoe
  generalize hdoy : doe - (365 * yoe + yoe / 4 - yoe / 100) = doy
  have hdoy1 : doy ≤ 365 := by omega
  generalize hmp : (5 * doy + 2) / 153 = mp
  have hmp1 : mp ≤ 11 := by omega
  have hd1 : (153 * mp + 2) / 5 ≤ doy := by omega
  constructor
  · split_ifs <;> omega
  · omega

theorem civilN_inj {a b : Nat} (h : civilN a = civilN b) : a = b := by
  have ha := daysN_civilN a
  have hb := daysN_civilN b
  rw [h] at ha
  rw [ha] at hb
  exact hb

theorem dateParts_inj {y1 m1 d1 y2 m2 d2 : Nat}
    (hm1 : m1 < 100) (hd1 : d1 < 100) (hm2 : m2 < 100) (hd2 : d2 < 100)
    (h : padNum 4 y1 ++ '-' :: padNum 2 m1 ++ '-' :: padNum 2 d1
       = padNum 4 y2 ++ '-' :: padNum 2 m2 ++ '-' :: padNum 2 d2) :
    y1 = y2 ∧ m1 = m2 ∧ d1 = d2 := by
  have h' := congrArg List.reverse h
  simp only [List.reverse_append, List.reverse_cons, List.append_assoc, List.nil_append,
    List.cons_append, List.singleton_append] at h'
  obtain ⟨hD, h1⟩ := List.append_inj h' (by
    rw [List.length_reverse, List.length_reverse, padNum_two_length hd1, padNum_two_length hd2])
  have hdd : d1 = d2 := padNum_inj 2 (List.reverse_injective hD)
  simp only [List.cons.injEq, true_and] at h1
  obtain ⟨hM, h2⟩ := List.append_inj h1 (by
    rw [List.length_reverse, List.length_reverse, padNum_two_length hm1, padNum_two_length hm2])
  have hmm : m1 = m2 := padNum_inj 2 (List.reverse_injective hM)
  simp only [List.cons.injEq, true_and] at h2
  have hyy : y1 = y2 := padNum_inj 4 (List.reverse_injective h2)
  exact ⟨hyy, hmm, hdd⟩

theorem dayOfMs_natCast (n : Nat) : dayOfMs (n : Int) = ((n / 86400000 : Nat) : Int) := by
  cases n with
  | zero => rfl
  | succ m => rfl

theorem dayToStr_inj {a b : Nat} (h : dayToStr (a : Int) = dayToStr (b : Int)) : a = b := by
  simp only [dayToStr] at h
  have ha : ((a : Int) + 719468).toNat = a + 719468 := by omega
  have hb : ((b : Int) + 719468).toNat = b + 719468 := by omega
  rw [ha, hb] at h
  injection h with h
  obtain ⟨h1, h2, h3⟩ := dateParts_inj (civilN_parts_lt (a + 719468)).1
    (civilN_parts_lt (a + 719468)).2 (civilN_parts_lt (b + 719468)).1
    (civilN_parts_lt (b + 719468)).2 h
  have hc : civilN (a + 719468) = civilN (b + 719468) := by
    rw [Prod.ext_iff, Prod.ext_iff]
    exact ⟨h1, h2, h3⟩
  have := civilN_inj hc
  omega

theorem iterFrom_eq (n : Nat) :
    ∀ cur : Int, iterFrom cur n = (List.range n).map (fun i : Nat => dayToStr (cur + (i : Int))) := by
  induction n with
  | zero => intro cur; rfl
  | succ n ih =>
    intro cur
    rw [List.range_succ_eq_map, List.map_cons, List.map_map]
    show dayToStr cur :: iterFrom (cur + 1) n = _
    rw [ih (cur + 1)]
    congr 1
    · norm_num
    · apply List.map_congr_left
      intro i _
      simp only [Function.comp_apply]
      congr 1
      push_cast
      ring

/-- C5: for every window with `end_ms ≥ start_ms` (epoch-millisecond
timestamps), `iter_dates` returns exactly the UTC calendar-day strings from
the day of `start_ms` through the day of `end_ms` inclusive, in order, one
entry per day (hence no gaps), with no duplicates; in particular
`iter_dates 1628899199500 1628899200500 = ["2021-08-13", "2021-08-14"]`, and
a window whose endpoints share a UTC calendar day yields a one-element list. -/
theorem C5_window_decomposer (s e : Nat) (h : s ≤ e) :
    iter_dates (s : Int) (e : Int)
        = (List.range (e / 86400000 - s / 86400000 + 1)).map
            (fun i : Nat => dayToStr (((s / 86400000 + i : Nat) : Int)))
    ∧ (iter_dates (s : Int) (e : Int)).Nodup
    ∧ iter_dates 1628899199500 1628899200500 = ["2021-08-13", "2021-08-14"]
    ∧ (s / 86400000 = e / 86400000 →
        iter_dates (s : Int) (e : Int) = [dayToStr ((s / 86400000 : Nat) : Int)]) := by
  have hle : s / 86400000 ≤ e / 86400000 := Nat.div_le_div_right h
  have hcount : (dayOfMs (e : Int) + 1 - dayOfMs (s : Int)).toNat
      = e / 86400000 - s / 86400000 + 1 := by
    rw [dayOfMs_natCast, dayOfMs_natCast]
    omega
  have hmain : iter_dates (s : Int) (e : Int)
      = (List.range (e / 86400000 - s / 86400000 + 1)).map
          (fun i : Nat => dayToStr (((s / 86400000 + i : Nat) : Int))) := by
    unfold iter_dates
    rw [hcount, dayOfMs_natCast, iterFrom_eq]
    apply List.map_congr_left
    intro i _
    congr 1
  refine ⟨hmain, ?_, by decide, ?_⟩
  · rw [hmain]
    refine List.Nodup.map ?_ (List.nodup_range _)
    intro i j hij
    have := dayToStr_inj hij
    omega
  · intro heq
    rw [hmain, heq]
    simp [List.range_succ]

/-- Witness for C5 at the concrete window of the spec's example. -/
theorem C5_window_decomposer_witness :
    iter_dates ((1628899199500 : Nat) : Int) ((1628899200500 : Nat) : Int)
        = (List.range (1628899200500 / 86400000 - 1628899199500 / 86400000 + 1)).map
            (fun i : Nat => dayToStr (((1628899199500 / 86400000 + i : Nat) : Int)))
    ∧ (iter_dates ((1628899199500 : Nat) : Int) ((1628899200500 : Nat) : Int)).Nodup
    ∧ iter_dates 1628899199500 1628899200500 = ["2021-08-13", "2021-08-14"]
    ∧ (1628899199500 / 86400000 = 1628899200500 / 86400000 →
        iter_dates ((1628899199500 : Nat) : Int) ((1628899200500 : Nat) : Int)
          = [dayToStr ((1628899199500 / 86400000 : Nat) : Int)]) :=
  C5_window_decomposer 1628899199500 1628899200500 (by omega)

theorem roundHalfEven_close (num den : Nat) (h : 0 < den) :
    2 * (roundHalfEven num den * den) ≤ 2 * num + den
    ∧ 2 * num ≤ 2 * (roundHalfEven num den * den) + den := by
  simp only [roundHalfEven]
  obtain ⟨q, r, hr, rfl⟩ : ∃ q r, r < den ∧ num = den * q + r :=
    ⟨num / den, num % den, Nat.mod_lt _ h, (Nat.div_add_mod _ _).symm⟩
  rw [Nat.mul_add_div h, Nat.mul_add_mod, Nat.div_eq_of_lt hr, Nat.mod_eq_of_lt hr]
  simp only [Nat.add_zero]
  split_ifs with h1 h2 h3
  · have e1 : (q + 1) * den = den * q + den := by ring
    rw [e1]
    constructor <;> linarith
  · have e1 : q * den = den * q := by ring
    rw [e1]
    constructor <;> linarith
  · have e1 : q * den = den * q := by ring
    rw [e1]
    constructor <;> linarith
  · have e1 : (q + 1) * den = den * q + den := by ring
    rw [e1]
    constructor <;> linarith

/-- C8: `fmt_ratio` renders `"n/a"` exactly when the estimated miss count is
not positive; for a positive estimate it renders `actual / estimated` to 4
decimal places with an `"x"` suffix — the rendered scaled integer `q` is
within half a unit (of the fourth decimal place) of the exact rational
`actual * 10000 / estimated`; and the spec's two concrete examples hold:
`Ratio(5, 10) = "0.5000x"` and `Ratio(5, 0) = "n/a"`. -/
theorem C8_fmt_ratio (actual : Nat) (estimated : Int) :
    (estimated ≤ 0 → fmt_ratio actual estimated = "n/a")
    ∧ (0 < estimated → ∃ q : Nat,
        fmt_ratio actual estimated = fixed4String q ++ "x"
        ∧ 2 * (q * estimated.toNat) ≤ 2 * (actual * 10000) + estimated.toNat
        ∧ 2 * (actual * 10000) ≤ 2 * (q * estimated.toNat) + estimated.toNat)
    ∧ fmt_ratio 5 10 = "0.5000x"
    ∧ fmt_ratio 5 0 = "n/a" := by
  refine ⟨?_, ?_, by decide, by decide⟩
  · intro hle
    unfold fmt_ratio
    rw [if_pos hle]
  · intro hpos
    refine ⟨roundHalfEven (actual * 10000) estimated.toNat, ?_, ?_⟩
    · unfold fmt_ratio
      rw [if_neg (by omega)]
    · exact roundHalfEven_close (actual * 10000) estimated.toNat (by omega)

/-- Witness for C8 at `actual = 5`, `estimated = 10`. -/
theorem C8_fmt_ratio_witness :
    (((10 : Int) ≤ 0 → fmt_ratio 5 10 = "n/a")
    ∧ ((0 : Int) < 10 → ∃ q : Nat,
        fmt_ratio 5 10 = fixed4String q ++ "x"
        ∧ 2 * (q * (10 : Int).toNat) ≤ 2 * (5 * 10000) + (10 : Int).toNat
        ∧ 2 * (5 * 10000) ≤ 2 * (q * (10 : Int).toNat) + (10 : Int).toNat)
    ∧ fmt_ratio 5 10 = "0.5000x"
    ∧ fmt_ratio 5 0 = "n/a")
    ∧ fmt_ratio 5 10 = "0.5000x" :=
  ⟨C8_fmt_ratio 5 10, (C8_fmt_ratio 5 10).2.2.1⟩

theorem scanLoop_skip {tsIndex : Nat} {s e : Int} {line : String}
    (c : Nat) (f l : Option Int) (rest : List String)
    (h : rowTs tsIndex line = none) :
    scanLoop tsIndex s e c f l (line :: rest) = scanLoop tsIndex s e c f l rest := by
  simp only [scanLoop, h]

theorem scanLoop_skip_low {tsIndex : Nat} {s e : Int} {line : String} {ts : Int}
    (c : Nat) (f l : Option Int) (rest : List String)
    (h : rowTs tsIndex line = some ts) (hlt : ts < s) :
    scanLoop tsIndex s e c f l (line :: rest) = scanLoop tsIndex s e c f l rest := by
  simp only [scanLoop, h]
  rw [if_pos hlt]

theorem scanLoop_stop_at {tsIndex : Nat} {s e : Int} {line : String} {ts : Int}
    (c : Nat) (f l : Option Int) (rest : List String)
    (h : rowTs tsIndex line = some ts) (h2 : ¬ ts < s) (h3 : e < ts) :
    scanLoop tsIndex s e c f l (line :: rest) = (c, f, l) := by
  simp only [scanLoop, h]
  rw [if_neg h2, if_pos h3]

theorem scanLoop_hit {tsIndex : Nat} {s e : Int} {line : String} {ts : Int}
    (c : Nat) (f l : Option Int) (rest : List String)
    (h : rowTs tsIndex line = some ts) (h2 : ¬ ts < s) (h3 : ¬ e < ts) :
    scanLoop tsIndex s e c f l (line :: rest)
      = scanLoop tsIndex s e (c + 1)
          (match f with | none => some ts | some x => some x) (some ts) rest := by
  simp only [scanLoop, h]
  rw [if_neg h2, if_neg h3]

theorem scanLoop_stop_suffix {tsIndex : Nat} {s e : Int} {b : String} {t : Int}
    (hb : rowTs tsIndex b = some t) (hse : s ≤ e) (ht : e < t) :
    ∀ (pre : List String) (c : Nat) (f l : Option Int) (suf1 suf2 : List String),
      scanLoop tsIndex s e c f l (pre ++ b :: suf1)
        = scanLoop tsIndex s e c f l (pre ++ b :: suf2) := by
  intro pre
  induction pre with
  | nil =>
    intro c f l s1 s2
    rw [List.nil_append, List.nil_append, scanLoop_stop_at c f l s1 hb (by omega) ht,
      scanLoop_stop_at c f l s2 hb (by omega) ht]
  | cons x xs ih =>
    intro c f l s1 s2
    rw [List.cons_append, List.cons_append]
    cases hx : rowTs tsIndex x with
    | none =>
      rw [scanLoop_skip c f l _ hx, scanLoop_skip c f l _ hx]
      exact ih c f l s1 s2
    | some u =>
      by_cases hu1 : u < s
      · rw [scanLoop_skip_low c f l _ hx hu1, scanLoop_skip_low c f l _ hx hu1]
        exact ih c f l s1 s2
      · by_cases hu2 : e < u
        · rw [scanLoop_stop_at c f l _ hx hu1 hu2, scanLoop_stop_at c f l _ hx hu1 hu2]
        · rw [scanLoop_hit c f l _ hx hu1 hu2, scanLoop_hit c f l _ hx hu1 hu2]
          exact ih _ _ _ s1 s2

theorem scanLoop_inv (tsIndex : Nat) (s e : Int) (P : Int → Prop) :
    ∀ (lines : List String) (c : Nat) (f l : Option Int),
      (c = 0 ↔ f = none) → (c = 0 ↔ l = none) →
      (∀ t, f = some t → P t) → (∀ t, l = some t → P t) →
      (∀ t line, line ∈ lines → rowTs tsIndex line = some t → s ≤ t → t ≤ e → P t) →
      ((scanLoop tsIndex s e c f l lines).1 = 0 ↔ (scanLoop tsIndex s e c f l lines).2.1 = none)
      ∧ ((scanLoop tsIndex s e c f l lines).1 = 0 ↔ (scanLoop tsIndex s e c f l lines).2.2 = none)
      ∧ (∀ t, (scanLoop tsIndex s e c f l lines).2.1 = some t → P t)
      ∧ (∀ t, (scanLoop tsIndex s e c f l lines).2.2 = some t → P t) := by
  intro lines
  induction lines with
  | nil =>
    intro c f l h1 h2 h3 h4 _
    exact ⟨h1, h2, h3, h4⟩
  | cons line rest ih =>
    intro c f l h1 h2 h3 h4 h5
    have h5r : ∀ t x, x ∈ rest → rowTs tsIndex x = some t → s ≤ t → t ≤ e → P t :=
      fun t x hx => h5 t x (List.mem_cons_of_mem _ hx)
    cases hx : rowTs tsIndex line with
    | none =>
      rw [scanLoop_skip c f l rest hx]
      exact ih c f l h1 h2 h3 h4 h5r
    | some ts =>
      by_cases hu1 : ts < s
      · rw [scanLoop_skip_low c f l rest hx hu1]
        exact ih c f l h1 h2 h3 h4 h5r
      · by_cases hu2 : e < ts
        · rw [scanLoop_stop_at c f l rest hx hu1 hu2]
          exact ⟨h1, h2, h3, h4⟩
        · rw [scanLoop_hit c f l rest hx hu1 hu2]
          have hPts : P ts :=
            h5 ts line (List.mem_cons_self _ _) hx (by omega) (by omega)
          refine ih (c + 1) _ (some ts) ?_ ?_ ?_ ?_ h5r
          · cases f <;> simp
          · simp
          · intro t hft
            cases f with
            | none =>
              simp only [Option.some.injEq] at hft
              exact hft ▸ hPts
            | some x =>
              simp only [Option.some.injEq] at hft
              exact hft ▸ h3 x rfl
          · intro t hlt
            simp only [Option.some.injEq] at hlt
            exact hlt ▸ hPts

/-- C6: the window scanner processes rows in file order: a row with too few
fields yields no timestamp; a row with no parseable timestamp is skipped; a
row with timestamp below `startMs` is skipped; the first row with timestamp
above `endMs` (in a well-formed window) terminates the scan with the current
state, so later rows never affect the result; otherwise the row is counted
and updates first-seen/last-seen; and on rows with timestamps
`[100, 200, 300, 400]` and window `[150, 350]` the scanner returns
`count = 2`, `first_hit = 200`, `last_hit = 300`. -/
theorem C6_window_scanner (tsIndex : Nat) (s e : Int) (c : Nat)
    (f l : Option Int) (line : String) (rest : List String) :
    ((rowParts line).length ≤ tsIndex → rowTs tsIndex line = none)
    ∧ (rowTs tsIndex line = none →
        scanLoop tsIndex s e c f l (line :: rest) = scanLoop tsIndex s e c f l rest)
    ∧ (∀ ts, rowTs tsIndex line = some ts → ts < s →
        scanLoop tsIndex s e c f l (line :: rest) = scanLoop tsIndex s e c f l rest)
    ∧ (∀ ts, rowTs tsIndex line = some ts → s ≤ e → e < ts →
        scanLoop tsIndex s e c f l (line :: rest) = (c, f, l))
    ∧ (∀ ts, rowTs tsIndex line = some ts → s ≤ ts → ts ≤ e →
        scanLoop tsIndex s e c f l (line :: rest)
          = scanLoop tsIndex s e (c + 1)
              (match f with | none => some ts | some x => some x) (some ts) rest)
    ∧ (∀ (pre : List String) (b : String) (t : Int) (suf1 suf2 : List String),
        rowTs tsIndex b = some t → s ≤ e → e < t →
        scanLoop tsIndex s e c f l (pre ++ b :: suf1)
          = scanLoop tsIndex s e c f l (pre ++ b :: suf2))
    ∧ scan_zip_for_window ⟨[("member.csv", ["a,100", "a,200", "a,300", "a,400"])]⟩ 150 350 1
        = (2, some 200, some 300) := by
  refine ⟨?_, ?_, ?_, ?_, ?_, ?_, by decide⟩
  · intro hshort
    unfold rowTs rowField
    simp only [if_pos hshort, Option.bind]
  · intro h
    exact scanLoop_skip c f l rest h
  · intro ts h hlt
    exact scanLoop_skip_low c f l rest h hlt
  · intro ts h hse hgt
    exact scanLoop_stop_at c f l rest h (by omega) hgt
  · intro ts h h1 h2
    exact scanLoop_hit c f l rest h (by omega) (by omega)
  · intro pre b t s1 s2 hb hse ht
    exact scanLoop_stop_suffix hb hse ht pre c f l s1 s2

/-- Witness for C6: the concrete scan of the spec's example, extracted by
applying the claim theorem at concrete inputs. -/
theorem C6_window_scanner_witness :
    scan_zip_for_window ⟨[("member.csv", ["a,100", "a,200", "a,300", "a,400"])]⟩ 150 350 1
      = (2, some 200, some 300) :=
  (C6_window_scanner 1 150 350 0 none none "" []).2.2.2.2.2.2

/-- C10: for every archive and window, the scanner result has `count = 0`
iff `first_hit` is `none`, iff `last_hit` is `none`; and any reported
first/last hit lies inside the inclusive window and is the parsed timestamp
of some row of the scanned member. -/
theorem C10_scanner_result_invariant (zip : ZipArchive) (s e : Int) (tsIndex : Nat) :
    ((scan_zip_for_window zip s e tsIndex).1 = 0
        ↔ (scan_zip_for_window zip s e tsIndex).2.1 = none)
    ∧ ((scan_zip_for_window zip s e tsIndex).1 = 0
        ↔ (scan_zip_for_window zip s e tsIndex).2.2 = none)
    ∧ (∀ t, (scan_zip_for_window zip s e tsIndex).2.1 = some t →
        s ≤ t ∧ t ≤ e ∧ ∃ line ∈ memberLines zip, rowTs tsIndex line = some t)
    ∧ (∀ t, (scan_zip_for_window zip s e tsIndex).2.2 = some t →
        s ≤ t ∧ t ≤ e ∧ ∃ line ∈ memberLines zip, rowTs tsIndex line = some t) := by
  have hz : scan_zip_for_window zip s e tsIndex
      = scanLoop tsIndex s e 0 none none (memberLines zip) := by
    unfold scan_zip_for_window memberLines
    cases dataMembers zip with
    | nil => rfl
    | cons m ms => rfl
  rw [hz]
  exact scanLoop_inv tsIndex s e
    (fun t => s ≤ t ∧ t ≤ e ∧ ∃ line ∈ memberLines zip, rowTs tsIndex line = some t)
    (memberLines zip) 0 none none (by simp) (by simp) (by simp) (by simp)
    (fun t line hm hts hls hle => ⟨hls, hle, line, hm, hts⟩)

/-- Witness for C10 at the concrete example archive. -/
theorem C10_scanner_result_invariant_witness :
    ((scan_zip_for_window ⟨[("member.csv", ["a,100", "a,200", "a,300", "a,400"])]⟩ 150 350 1).1 = 0
        ↔ (scan_zip_for_window ⟨[("member.csv", ["a,100", "a,200", "a,300", "a,400"])]⟩ 150 350 1).2.1 = none)
    ∧ ((scan_zip_for_window ⟨[("member.csv", ["a,100", "a,200", "a,300", "a,400"])]⟩ 150 350 1).1 = 0
        ↔ (scan_zip_for_window ⟨[("member.csv", ["a,100", "a,200", "a,300", "a,400"])]⟩ 150 350 1).2.2 = none)
    ∧ (∀ t, (scan_zip_for_window ⟨[("member.csv", ["a,100", "a,200", "a,300", "a,400"])]⟩ 150 350 1).2.1 = some t →
        150 ≤ t ∧ t ≤ 350
          ∧ ∃ line ∈ memberLines ⟨[("member.csv", ["a,100", "a,200", "a,300", "a,400"])]⟩,
              rowTs 1 line = some t)
    ∧ (∀ t, (scan_zip_for_window ⟨[("member.csv", ["a,100", "a,200", "a,300", "a,400"])]⟩ 150 350 1).2.2 = some t →
        150 ≤ t ∧ t ≤ 350
          ∧ ∃ line ∈ memberLines ⟨[("member.csv", ["a,100", "a,200", "a,300", "a,400"])]⟩,
              rowTs 1 line = some t) :=
  C10_scanner_result_invariant ⟨[("member.csv", ["a,100", "a,200", "a,300", "a,400"])]⟩ 150 350 1

theorem read_line_timestamp_eq_bind (files : String → Option (List String))
    (path : String) (n : Int) :
    read_line_timestamp files path n = (lineAt files path n).bind firstTokenInt := by
  unfold read_line_timestamp lineAt firstTokenInt
  cases hf : files path with
  | none => rfl
  | some lines =>
    by_cases hn : n < 1
    · simp only [if_pos hn]
      rfl
    · simp only [if_neg hn]
      cases hl : lines[(n - 1).toNat]? with
      | none => rfl
      | some line => rfl

/-- C9: the timestamp resolver returns `gap_end_ts` directly — independently
of the file system, hence with no file I/O — whenever it is present;
otherwise it reads the 1-indexed line numbered `start_line` of the backing
file and returns the first whitespace-delimited token parsed as an integer;
and `read_line_timestamp` is unresolvable exactly when the file does not
exist, the target line does not exist, or the line's first token (if any) is
not a valid integer. -/
theorem C9_timestamp_resolver (files : String → Option (List String)) (row : GapRow) :
    (∀ t, row.gap_end_ts = some t → ∀ files2 : String → Option (List String),
        resolveTs files2 row = some t)
    ∧ (row.gap_end_ts = none →
        resolveTs files row
          = read_line_timestamp files (resolve_file_path row.root_path row.relative_path)
              row.start_line)
    ∧ (∀ path n, read_line_timestamp files path n = (lineAt files path n).bind firstTokenInt)
    ∧ (∀ path n, read_line_timestamp files path n = none ↔
        (files path = none
          ∨ (files path ≠ none ∧ lineAt files path n = none)
          ∨ (∃ line, lineAt files path n = some line ∧ firstTokenInt line = none))) := by
  refine ⟨?_, ?_, fun path n => read_line_timestamp_eq_bind files path n, ?_⟩
  · intro t ht files2
    unfold resolveTs
    rw [ht]
  · intro h
    unfold resolveTs
    rw [h]
  · intro path n
    rw [read_line_timestamp_eq_bind]
    cases hla : lineAt files path n with
    | none =>
      simp only [Option.none_bind]
      constructor
      · intro _
        by_cases hfp : files path = none
        · exact Or.inl hfp
        · exact Or.inr (Or.inl ⟨hfp, trivial⟩)
      · intro _
        trivial
    | some line =>
      simp only [Option.some_bind]
      constructor
      · intro hfi
        exact Or.inr (Or.inr ⟨line, rfl, hfi⟩)
      · rintro (hc | ⟨_, hc⟩ | ⟨line2, hl2, hc⟩)
        · unfold lineAt at hla
          rw [hc] at hla
          exact absurd hla (by simp)
        · exact absurd hc (by simp)
        · have hll : line = line2 := by
            simpa using hl2
          rw [hll]
          exact hc

/-- Witness for C9 at a concrete row whose `gap_end_ts` is present and an
empty file system. -/
theorem C9_timestamp_resolver_witness :
    (∀ t, (GapRow.mk 1 "root" "rel" "c" "e" "s" 7 9 1000 5 (some 42)).gap_end_ts = some t →
        ∀ files2 : String → Option (List String),
          resolveTs files2 (GapRow.mk 1 "root" "rel" "c" "e" "s" 7 9 1000 5 (some 42)) = some t)
    ∧ ((GapRow.mk 1 "root" "rel" "c" "e" "s" 7 9 1000 5 (some 42)).gap_end_ts = none →
        resolveTs (fun _ => none) (GapRow.mk 1 "root" "rel" "c" "e" "s" 7 9 1000 5 (some 42))
          = read_line_timestamp (fun _ => none)
              (resolve_file_path (GapRow.mk 1 "root" "rel" "c" "e" "s" 7 9 1000 5 (some 42)).root_path
                (GapRow.mk 1 "root" "rel" "c" "e" "s" 7 9 1000 5 (some 42)).relative_path)
              (GapRow.mk 1 "root" "rel" "c" "e" "s" 7 9 1000 5 (some 42)).start_line)
    ∧ (∀ path n, read_line_timestamp (fun _ => none) path n
        = (lineAt (fun _ => none) path n).bind firstTokenInt)
    ∧ (∀ path n, read_line_timestamp (fun _ => none) path n = none ↔
        ((fun _ : String => (none : Option (List String))) path = none
          ∨ ((fun _ : String => (none : Option (List String))) path ≠ none
              ∧ lineAt (fun _ => none) path n = none)
          ∨ (∃ line, lineAt (fun _ => none) path n = some line ∧ firstTokenInt line = none))) :=
  C9_timestamp_resolver (fun _ => none) (GapRow.mk 1 "root" "rel" "c" "e" "s" 7 9 1000 5 (some 42))

theorem sampleAux_length {α : Type} :
    ∀ (k s : Nat) (l : List α), (sampleAux s k l).length = min k l.length := by
  intro k
  induction k with
  | zero => intro s l; simp [sampleAux]
  | succ k ih =>
    intro s l
    cases l with
    | nil => simp [sampleAux]
    | cons a rest =>
      simp only [sampleAux, List.length_cons]
      rw [ih, List.length_eraseIdx]
      simp only [List.length_cons]
      rw [if_pos (Nat.mod_lt _ (Nat.succ_pos rest.length))]
      omega

theorem sampleAux_mem {α : Type} :
    ∀ (k s : Nat) (l : List α) (x : α), x ∈ sampleAux s k l → x ∈ l := by
  intro k
  induction k with
  | zero => intro s l x hx; simp [sampleAux] at hx
  | succ k ih =>
    intro s l x hx
    cases l with
    | nil => simp [sampleAux] at hx
    | cons a rest =>
      simp only [sampleAux, List.mem_cons] at hx
      rcases hx with h | h
      · rw [h]
        exact List.get_mem _ _ _
      · exact List.Sublist.mem (ih _ _ _ h) (List.eraseIdx_sublist _ _)

theorem sampleAux_nodup {α : Type} :
    ∀ (k s : Nat) (l : List α), l.Nodup → (sampleAux s k l).Nodup := by
  intro k
  induction k with
  | zero => intro s l _; simp [sampleAux]
  | succ k ih =>
    intro s l h
    cases l with
    | nil => simp [sampleAux]
    | cons a rest =>
      simp only [sampleAux]
      rw [List.nodup_cons]
      constructor
      · intro hmem
        have hmem2 := sampleAux_mem _ _ _ _ hmem
        rw [List.mem_eraseIdx_iff_getElem] at hmem2
        obtain ⟨i, hi, hne, heq⟩ := hmem2
        rw [List.get_eq_getElem] at heq
        exact hne ((List.Nodup.getElem_inj_iff h).mp heq)
      · exact ih _ _ (List.Nodup.sublist (List.eraseIdx_sublist _ _) h)

/-- C3: the selector is deterministic — two queries that agree on every
component of the `SelectionQuery` (seed, filters, ordering mode, pool,
offset, limit), run against identical index contents, return the identical
row sequence in the identical order. -/
theorem C3_selector_deterministic (q1 q2 : SelectionQuery) (idx1 idx2 : GapIndex)
    (hc : q1.collector = q2.collector) (he : q1.exchange = q2.exchange)
    (hs : q1.symbol = q2.symbol) (hm : q1.min_miss = q2.min_miss)
    (hg : q1.min_gap_ms = q2.min_gap_ms) (ho : q1.order = q2.order)
    (hl : q1.limit = q2.limit) (hofs : q1.offset = q2.offset)
    (hp : q1.pool = q2.pool) (hseed : q1.seed = q2.seed)
    (hidx : idx1 = idx2) :
    iter_gap_rows q1 idx1 = iter_gap_rows q2 idx2 := by
  have hq : q1 = q2 := by
    cases q1
    cases q2
    simp only [SelectionQuery.mk.injEq]
    exact ⟨hc, he, hs, hm, hg, ho, hl, hofs, hp, hseed⟩
  rw [hq, hidx]

/-- Witness for C3 at a concrete query pair and index. -/
theorem C3_selector_deterministic_witness :
    iter_gap_rows (SelectionQuery.mk none none none 0 0 OrderMode.random 5 0 1000 1337)
        (GapIndex.mk [] [])
      = iter_gap_rows (SelectionQuery.mk none none none 0 0 OrderMode.random 5 0 1000 1337)
        (GapIndex.mk [] []) :=
  C3_selector_deterministic _ _ _ _ rfl rfl rfl rfl rfl rfl rfl rfl rfl rfl rfl

/-- C4: in random mode with a positive limit, the selection returns at most
`min(limit, |pool after the offset slice|)` records, and — the pool rows
being pairwise distinct — never returns the same record twice; with
`limit ≤ 0` the remaining pool is returned as-is, in pool order, without
sampling. -/
theorem C4_random_sampling (q : SelectionQuery) (idx : GapIndex)
    (ho : q.order = OrderMode.random) (hnd : (poolRemaining q idx).Nodup) :
    (0 < q.limit →
      (iter_gap_rows q idx).length ≤ min q.limit.toNat (poolRemaining q idx).length
      ∧ (iter_gap_rows q idx).Nodup)
    ∧ (q.limit ≤ 0 → iter_gap_rows q idx = poolRemaining q idx) := by
  unfold iter_gap_rows
  rw [if_pos ho]
  constructor
  · intro hpos
    by_cases h1 : (poolRows q idx).isEmpty
    · rw [if_pos h1]
      exact ⟨by simp, List.nodup_nil⟩
    · rw [if_neg h1]
      by_cases h2 : (poolRemaining q idx).isEmpty
      · rw [if_pos h2]
        exact ⟨by simp, List.nodup_nil⟩
      · rw [if_neg h2, if_neg (by omega)]
        constructor
        · unfold rngSample
          rw [sampleAux_length]
          omega
        · exact sampleAux_nodup _ _ _ hnd
  · intro hle
    by_cases h1 : (poolRows q idx).isEmpty
    · rw [if_pos h1]
      have hempty : poolRemaining q idx = [] := by
        rw [List.isEmpty_iff] at h1
        unfold poolRemaining pySliceFrom
        rw [h1]
        split_ifs <;> simp
      rw [hempty]
    · rw [if_neg h1]
      by_cases h2 : (poolRemaining q idx).isEmpty
      · rw [if_pos h2]
        rw [List.isEmpty_iff] at h2
        exact h2.symm
      · rw [if_neg h2, if_pos hle]

/-- Witness for C4 at a concrete random-mode query over a two-row index. -/
theorem C4_random_sampling_witness :
    (0 < witnessQuery.limit →
      (iter_gap_rows witnessQuery witnessIndex).length
          ≤ min witnessQuery.limit.toNat (poolRemaining witnessQuery witnessIndex).length
      ∧ (iter_gap_rows witnessQuery witnessIndex).Nodup)
    ∧ (witnessQuery.limit ≤ 0 →
        iter_gap_rows witnessQuery witnessIndex = poolRemaining witnessQuery witnessIndex) :=
  C4_random_sampling witnessQuery witnessIndex rfl (by decide)

theorem foldl_stepSummary (outs : List VerificationOutcome) :
    ∀ s : RunSummary,
      (outs.foldl stepSummary s).gaps = s.gaps
      ∧ (outs.foldl stepSummary s).inspected = s.inspected + outs.countP isInspectedO
      ∧ (outs.foldl stepSummary s).skipped = s.skipped + outs.countP isSkippedO
      ∧ (outs.foldl stepSummary s).total_est_miss
          = s.total_est_miss + ((outs.filterMap outMiss).sum)
      ∧ (outs.foldl stepSummary s).total_binance_trades
          = s.total_binance_trades + ((outs.filterMap outTotal).sum) := by
  induction outs with
  | nil =>
    intro s
    simp
  | cons o rest ih =>
    intro s
    rw [List.foldl_cons]
    obtain ⟨h1, h2, h3, h4, h5⟩ := ih (stepSummary s o)
    cases o <;>
      simp only [stepSummary, isInspectedO, isSkippedO, outMiss, outTotal,
        List.countP_cons, List.filterMap_cons, List.sum_cons, cond_true, cond_false,
        if_true, if_false] at h1 h2 h3 h4 h5 ⊢ <;>
      refine ⟨by omega, ?_, ?_, ?_, ?_⟩ <;>
      simp only [h1, h2, h3, h4, h5] <;>
      push_cast <;>
      try omega

theorem outcome_cases_count (outs : List VerificationOutcome) :
    outs.countP isInspectedO + outs.countP isSkippedO + outs.countP isUnresolvableO
      = outs.length := by
  induction outs with
  | nil => rfl
  | cons o rest ih =>
    cases o <;>
      simp [List.countP_cons, isInspectedO, isSkippedO, isUnresolvableO,
        List.length_cons] <;>
      omega

/-- Counterexample to C1 as stated: one selected gap whose end timestamp
cannot be resolved (no cached `gap_end_ts`, fallback file unreadable) is
abandoned by `continue` without touching the skipped counter, so the run
reports `gaps = 1` but `inspected + skipped = 0`: gaps considered does not
equal inspected plus skipped. -/
theorem C1_unresolvable_uncounted :
    processGap emptyEnv 4 unresolvedRow = VerificationOutcome.unresolvable
    ∧ (runGaps emptyEnv 4 [unresolvedRow]).1.gaps = 1
    ∧ (runGaps emptyEnv 4 [unresolvedRow]).1.inspected = 0
    ∧ (runGaps emptyEnv 4 [unresolvedRow]).1.skipped = 0
    ∧ (runGaps emptyEnv 4 [unresolvedRow]).1.gaps
        ≠ (runGaps emptyEnv 4 [unresolvedRow]).1.inspected
          + (runGaps emptyEnv 4 [unresolvedRow]).1.skipped :=
  ⟨by decide, by decide, by decide, by decide, by decide⟩

/-- C1 amended: each selected gap yields exactly one terminal outcome —
Inspected, Skipped, or Unresolvable; a gap whose end timestamp cannot be
resolved yields Unresolvable, which is not counted in the skipped counter,
so gaps considered equals inspected plus skipped plus the number of
unresolvable gaps (and equals inspected plus skipped only when every gap's
timestamp resolves). -/
theorem C1_run_accounting (env : RunEnv) (tsIndex : Nat) (rows : List GapRow) :
    (runGaps env tsIndex rows).2 = rows.map (processGap env tsIndex)
    ∧ (runGaps env tsIndex rows).1.gaps = rows.length
    ∧ (runGaps env tsIndex rows).1.inspected
        = (runGaps env tsIndex rows).2.countP isInspectedO
    ∧ (runGaps env tsIndex rows).1.skipped
        = (runGaps env tsIndex rows).2.countP isSkippedO
    ∧ (runGaps env tsIndex rows).1.gaps
        = (runGaps env tsIndex rows).1.inspected + (runGaps env tsIndex rows).1.skipped
          + (runGaps env tsIndex rows).2.countP isUnresolvableO := by
  obtain ⟨h1, h2, h3, h4, h5⟩ :=
    foldl_stepSummary (rows.map (processGap env tsIndex)) (RunSummary.mk rows.length 0 0 0 0)
  have e1 : (RunSummary.mk rows.length 0 0 0 0).gaps = rows.length := rfl
  have e2 : (RunSummary.mk rows.length 0 0 0 0).inspected = 0 := rfl
  have e3 : (RunSummary.mk rows.length 0 0 0 0).skipped = 0 := rfl
  have hc := outcome_cases_count (rows.map (processGap env tsIndex))
  have hlen : (rows.map (processGap env tsIndex)).length = rows.length :=
    List.length_map _ _
  refine ⟨rfl, ?_, ?_, ?_, ?_⟩
  all_goals (simp only [runGaps]; omega)

theorem linesFor_no_summary (row : GapRow) (o : VerificationOutcome) :
    (linesFor row o).countP isSummaryLine = 0 := by
  cases o <;>
    simp only [linesFor] <;>
    first
      | rfl
      | (split_ifs <;> rfl)

theorem flatMap_linesFor_no_summary (l : List (GapRow × VerificationOutcome)) :
    (l.flatMap (fun rp => linesFor rp.1 rp.2)).countP isSummaryLine = 0 := by
  induction l with
  | nil => rfl
  | cons a rest ih =>
    rw [List.flatMap_cons, List.countP_append, ih, linesFor_no_summary]

/-- Counterexample to C2 as stated: when the selector returns no
candidates, `main` prints only the no-candidates message and returns before
the summary — no RunSummary line is emitted. -/
theorem C2_no_candidates_no_summary :
    mainLines emptyEnv 4 [] = [ReportLine.noCandidates]
    ∧ (mainLines emptyEnv 4 []).countP isSummaryLine = 0 :=
  ⟨by decide, by decide⟩

/-- C2 amended: exactly one final RunSummary line is emitted for every run
in which the selector returned at least one gap, and it is the last line of
the output; when the selector returns no candidates, `main` prints the
no-candidates message instead and emits no RunSummary line. -/
theorem C2_summary_emission (env : RunEnv) (tsIndex : Nat) (rows : List GapRow)
    (h : rows ≠ []) :
    (mainLines env tsIndex rows).countP isSummaryLine = 1
    ∧ (∃ g i sk tm tt r, (mainLines env tsIndex rows).getLast?
        = some (ReportLine.summaryLine g i sk tm tt r))
    ∧ (mainLines env tsIndex []).countP isSummaryLine = 0 := by
  refine ⟨?_, ?_, rfl⟩
  · unfold mainLines
    rw [if_neg (by simpa using h)]
    rw [List.countP_append, flatMap_linesFor_no_summary]
    rfl
  · unfold mainLines
    rw [if_neg (by simpa using h)]
    refine ⟨(runGaps env tsIndex rows).1.gaps, (runGaps env tsIndex rows).1.inspected,
      (runGaps env tsIndex rows).1.skipped, (runGaps env tsIndex rows).1.total_est_miss,
      (runGaps env tsIndex rows).1.total_binance_trades,
      fmt_ratio (runGaps env tsIndex rows).1.total_binance_trades
        (runGaps env tsIndex rows).1.total_est_miss, ?_⟩
    exact List.getLast?_concat _

/-- Witness for C2 at a concrete one-row run. -/
theorem C2_summary_emission_witness :
    (mainLines emptyEnv 4 [unresolvedRow]).countP isSummaryLine = 1
    ∧ (∃ g i sk tm tt r, (mainLines emptyEnv 4 [unresolvedRow]).getLast?
        = some (ReportLine.summaryLine g i sk tm tt r))
    ∧ (mainLines emptyEnv 4 []).countP isSummaryLine = 0 :=
  C2_summary_emission emptyEnv 4 [unresolvedRow] (by simp)

/-- C7: the run totals are sums over the inspected outcomes only —
`total_est_miss` is the sum of `gap_miss` over inspected outcomes and
`total_binance_trades` the sum of their reference totals; each skipped
outcome contributes nothing to either total while incrementing the skipped
count by exactly one; and a gap whose decomposed window spans more than 3
calendar days is classified window-too-large without consulting the
archive fetcher — it is never scanned. -/
theorem C7_totals_from_inspected (env : RunEnv) (tsIndex : Nat) (rows : List GapRow) :
    (runGaps env tsIndex rows).1.total_est_miss
        = ((runGaps env tsIndex rows).2.filterMap outMiss).sum
    ∧ (runGaps env tsIndex rows).1.total_binance_trades
        = ((runGaps env tsIndex rows).2.filterMap outTotal).sum
    ∧ (runGaps env tsIndex rows).1.skipped
        = (runGaps env tsIndex rows).2.countP isSkippedO
    ∧ (∀ row ts, resolveTs env.files row = some ts →
        3 < (iter_dates (ts - row.gap_ms) ts).length →
        processGap env tsIndex row
            = VerificationOutcome.tooLarge (iter_dates (ts - row.gap_ms) ts).length
          ∧ ∀ fetch2 : String → Option ZipArchive,
              processGap (RunEnv.mk env.files fetch2) tsIndex row
                = VerificationOutcome.tooLarge (iter_dates (ts - row.gap_ms) ts).length) := by
  obtain ⟨h1, h2, h3, h4, h5⟩ :=
    foldl_stepSummary (rows.map (processGap env tsIndex)) (RunSummary.mk rows.length 0 0 0 0)
  have e4 : (RunSummary.mk rows.length 0 0 0 0).total_est_miss = 0 := rfl
  have e5 : (RunSummary.mk rows.length 0 0 0 0).total_binance_trades = 0 := rfl
  have e3 : (RunSummary.mk rows.length 0 0 0 0).skipped = 0 := rfl
  refine ⟨?_, ?_, ?_, ?_⟩
  · simp only [runGaps]
    omega
  · simp only [runGaps]
    omega
  · simp only [runGaps]
    omega
  · intro row ts hres hlen
    constructor
    · unfold processGap
      rw [hres]
      simp only [if_pos hlen]
    · intro fetch2
      unfold processGap
      rw [show (RunEnv.mk env.files fetch2).files = env.files from rfl, hres]
      simp only [if_pos hlen]

/-- Witness for C7 at a concrete one-row run. -/
theorem C7_totals_from_inspected_witness :
    (runGaps emptyEnv 4 [unresolvedRow]).1.total_est_miss
        = ((runGaps emptyEnv 4 [unresolvedRow]).2.filterMap outMiss).sum
    ∧ (runGaps emptyEnv 4 [unresolvedRow]).1.total_binance_trades
        = ((runGaps emptyEnv 4 [unresolvedRow]).2.filterMap outTotal).sum
    ∧ (runGaps emptyEnv 4 [unresolvedRow]).1.skipped
        = (runGaps emptyEnv 4 [unresolvedRow]).2.countP isSkippedO
    ∧ (∀ row ts, resolveTs emptyEnv.files row = some ts →
        3 < (iter_dates (ts - row.gap_ms) ts).length →
        processGap emptyEnv 4 row
            = VerificationOutcome.tooLarge (iter_dates (ts - row.gap_ms) ts).length
          ∧ ∀ fetch2 : String → Option ZipArchive,
              processGap (RunEnv.mk emptyEnv.files fetch2) 4 row
                = VerificationOutcome.tooLarge (iter_dates (ts - row.gap_ms) ts).length) :=
  C7_totals_from_inspected emptyEnv 4 [unresolvedRow]
